import Mathlib

/-! Shallow embedding of the payload extractor `from_pcap` found in
src/cocotb/generators/opra_binary_payload_generators.py.

The Python source is a generator:

  def from_pcap(fname = "/home/chiggs/market-data/nysetech-data-feeds/opra_binary_3.20130320.pcap", npackets = 50):
      sent = 0
      with open(fname, 'r') as f:
          pcap = Reader(f)
          for index, (timestamp, packet) in enumerate(pcap):
              if sent > npackets: break
              p = Ether(packet)
              try:
                  yield str(p["UDP"].payload)
                  sent += 1
              except AttributeError:
                  continue

The external libraries (the dpkt `Reader`, the scapy `Ether` and layer lookup)
are modelled abstractly: each captured frame record is characterised by the
observable outcome of the calls the source makes on it.  The extractor is
embedded as a function producing the trace of externally visible events
(file open with its mode string, record pulls, yields, file release,
propagated exceptions), from which the emitted payload sequence, the number
of records pulled, and the escaping exception are derived. -/

namespace Opra

/-- Outcome of interpreting one record of the capture, as observed through
the calls the source performs on it.  `udpPayload s` means the record was
pulled, `Ether(packet)["UDP"].payload` succeeded and stringifies to `s`;
`attrError` means an `AttributeError` escaped inside the `try` block (the
only exception class the source catches); `frameError` means some other
exception escaped while interpreting the pulled record (for instance the
`IndexError` scapy raises from `p["UDP"]` when no UDP layer is present);
`readError` means the capture reader itself raised while pulling the next
record, before the loop body ran. -/
inductive FrameOutcome where
  | udpPayload (s : String)
  | attrError
  | frameError
  | readError
deriving DecidableEq, Repr

/-- Outcome of `open(fname, 'r')` followed by `Reader(f)`:  both succeed,
the open itself fails (missing or unreadable file, no handle created), or
the open succeeds and the reader constructor rejects the contents (not a
recognised capture format). -/
inductive OpenOutcome where
  | ok
  | openFail
  | readerFail
deriving DecidableEq, Repr

/-- A capture file, abstracted to how opening it behaves and to the list of
frame-record outcomes it holds, in file order. -/
structure Capture where
  openOutcome : OpenOutcome
  frames : List FrameOutcome
deriving DecidableEq, Repr

/-- The exceptions that can escape the extractor: a failure to open or
recognise the capture (named `CaptureOpenError` by the spec), or an uncaught
exception raised while pulling or interpreting a frame record. -/
inductive PcapError where
  | captureOpenError
  | frameException
deriving DecidableEq, Repr

/-- Externally visible events of one extraction call: the file open with
the mode string passed to `open`, a successful pull of one record from the
reader, a yield of one payload string, a write to the file, the release of
the file handle, and an exception propagating to the caller. -/
inductive Ev where
  | openF (mode : String)
  | readFrame
  | yieldP (s : String)
  | writeF
  | closeF
  | raiseE (e : PcapError)
deriving DecidableEq, Repr

/-- The `for` loop of `from_pcap`, run until it breaks, exhausts the
capture, or an exception escapes.  `sent` mirrors the Python variable.  The
loop pulls the next record, then tests `if sent > npackets: break`, then
runs `p = Ether(packet)` and the `try` block, whose only handler catches
`AttributeError` and continues.  Returns the events produced inside the
`with` block together with the exception escaping the loop, if any.  A
`readError` record propagates before the break test, since the pull happens
first; its pull produced no record, so no `readFrame` event is recorded. -/
def forLoop (npackets : Nat) : Nat → List FrameOutcome → List Ev × Option PcapError
  | _, [] => ([], none)
  | _, .readError :: _ => ([], some .frameException)
  | sent, .frameError :: _ =>
      if npackets < sent then ([.readFrame], none)
      else ([.readFrame], some .frameException)
  | sent, .attrError :: rest =>
      if npackets < sent then ([.readFrame], none)
      else (.readFrame :: (forLoop npackets sent rest).1, (forLoop npackets sent rest).2)
  | sent, .udpPayload s :: rest =>
      if npackets < sent then ([.readFrame], none)
      else (.readFrame :: .yieldP s :: (forLoop npackets (sent + 1) rest).1,
            (forLoop npackets (sent + 1) rest).2)

/-- Trailing events of an exception escaping the `with` block: the `with`
statement releases the handle first, then the exception reaches the
caller. -/
def raiseEvents : Option PcapError → List Ev
  | some e => [.raiseE e]
  | none => []

/-- Event trace of one call of `from_pcap`, iterated to exhaustion by the
consumer.  The mode string `"r"` is the literal the source passes to
`open`.  If `open` itself fails no handle exists and the error propagates;
if `Reader(f)` fails the `with` block releases the handle and the error
propagates; otherwise the loop runs and the handle is released when the
loop ends, before any escaping exception reaches the caller. -/
def from_pcap_trace (cap : Capture) (npackets : Nat) : List Ev :=
  match cap.openOutcome with
  | .openFail => [.raiseE .captureOpenError]
  | .readerFail => [.openF "r", .closeF, .raiseE .captureOpenError]
  | .ok =>
      .openF "r" ::
        ((forLoop npackets 0 cap.frames).1 ++ [.closeF]
          ++ raiseEvents (forLoop npackets 0 cap.frames).2)

/-- The payload a trace event carries, if it is a yield. -/
def payloadOf : Ev → Option String
  | .yieldP s => some s
  | _ => none

/-- The exception a trace event carries, if it is a raise. -/
def errorOf : Ev → Option PcapError
  | .raiseE e => some e
  | _ => none

/-- Recognises a record-pull event. -/
def isReadEv : Ev → Bool
  | .readFrame => true
  | _ => false

/-- Recognises a yield event. -/
def isYieldEv : Ev → Bool
  | .yieldP _ => true
  | _ => false

/-- Recognises a file-open event. -/
def isOpenEv : Ev → Bool
  | .openF _ => true
  | _ => false

/-- Recognises a handle-release event. -/
def isCloseEv : Ev → Bool
  | .closeF => true
  | _ => false

/-- Recognises a file-write event. -/
def isWriteEv : Ev → Bool
  | .writeF => true
  | _ => false

/-- The sequence of payloads one call of `from_pcap` emits, in order. -/
def emitted (cap : Capture) (npackets : Nat) : List String :=
  (from_pcap_trace cap npackets).filterMap payloadOf

/-- How many frame records one call of `from_pcap` pulls from the reader. -/
def framesRead (cap : Capture) (npackets : Nat) : Nat :=
  (from_pcap_trace cap npackets).countP isReadEv

/-- The exception, if any, that one call of `from_pcap` lets escape to the
caller. -/
def raised (cap : Capture) (npackets : Nat) : Option PcapError :=
  ((from_pcap_trace cap npackets).filterMap errorOf).head?

/-- The payloads of the records that decode to the expected shape, in
capture order. -/
def matchingPayload : FrameOutcome → Option String
  | .udpPayload s => some s
  | _ => none

/-- All matching payloads of a capture, in file order. -/
def matchingPayloads (fs : List FrameOutcome) : List String :=
  fs.filterMap matchingPayload

/-- Number of yield events in a trace. -/
def yieldCount (tr : List Ev) : Nat := tr.countP isYieldEv

/-- Truncates a trace right after its k-th yield event (k at least 1),
dropping everything the generator would have done afterwards. -/
def truncAfterYields : Nat → List Ev → List Ev
  | _, [] => []
  | k, .yieldP s :: rest =>
      if k ≤ 1 then [.yieldP s] else .yieldP s :: truncAfterYields (k - 1) rest
  | k, .openF m :: rest => .openF m :: truncAfterYields k rest
  | k, .readFrame :: rest => .readFrame :: truncAfterYields k rest
  | k, .writeF :: rest => .writeF :: truncAfterYields k rest
  | k, .closeF :: rest => .closeF :: truncAfterYields k rest
  | k, .raiseE e :: rest => .raiseE e :: truncAfterYields k rest

/-- Event trace when the consumer requests only `k` items and then drops
the generator.  For `k = 0` the generator body never starts, so no file is
ever opened.  If the full run yields at least `k` payloads, the generator
is suspended at its k-th yield when it is closed; closing it injects
`GeneratorExit` there and the `with` block releases the handle.  If the
full run yields fewer than `k` payloads, the requests of the consumer drive the
generator to its natural end and the full trace happens. -/
def abandonedTrace (cap : Capture) (npackets k : Nat) : List Ev :=
  if k = 0 then []
  else if k ≤ yieldCount (from_pcap_trace cap npackets) then
    truncAfterYields k (from_pcap_trace cap npackets) ++ [.closeF]
  else from_pcap_trace cap npackets

/-- The default capture path hard-coded in the signature of `from_pcap`. -/
def default_fname : String :=
  "/home/chiggs/market-data/nysetech-data-feeds/opra_binary_3.20130320.pcap"

/-- The default maximum count in the signature of `from_pcap`. -/
def default_npackets : Nat := 50

/-- Python default-argument resolution for the `fname` parameter. -/
def resolveFname : Option String → String
  | some s => s
  | none => default_fname

/-- Python default-argument resolution for the `npackets` parameter. -/
def resolveNpackets : Option Nat → Nat
  | some n => n
  | none => default_npackets

end Opra

namespace Opra

/-- Every event the loop itself produces is a record pull or a yield. -/
theorem forLoop_all (np : Nat) (p : Ev → Bool) (h1 : p .readFrame = true)
    (h2 : ∀ s, p (.yieldP s) = true) :
    ∀ (fs : List FrameOutcome) (sent : Nat), ((forLoop np sent fs).1).all p = true := by
  intro fs
  induction fs with
  | nil => intro sent; rfl
  | cons f rest ih =>
    intro sent
    cases f with
    | udpPayload s =>
      by_cases h : np < sent
      · simp [forLoop, h, h1]
      · simp [forLoop, h, h1, h2, ih (sent + 1)]
    | attrError =>
      by_cases h : np < sent
      · simp [forLoop, h, h1]
      · simp [forLoop, h, h1, ih sent]
    | frameError =>
      by_cases h : np < sent <;> simp [forLoop, h, h1]
    | readError => simp [forLoop]

/-- A predicate false on pulls and yields counts zero over the loop events. -/
theorem countP_forLoop_eq_zero (np : Nat) (p : Ev → Bool) (h1 : p .readFrame = false)
    (h2 : ∀ s, p (.yieldP s) = false) (fs : List FrameOutcome) (sent : Nat) :
    ((forLoop np sent fs).1).countP p = 0 := by
  rw [List.countP_eq_zero]
  intro a ha
  have hall := forLoop_all np (fun e => !(p e)) (by simp [h1]) (by simp [h2]) fs sent
  rw [List.all_eq_true] at hall
  have := hall a ha
  simp only [Bool.not_eq_true'] at this
  simp [this]

end Opra

namespace Opra

/-- On a capture that opens, the emitted payloads are the yields of the loop. -/
theorem emitted_ok (fs : List FrameOutcome) (np : Nat) :
    emitted ⟨.ok, fs⟩ np = ((forLoop np 0 fs).1).filterMap payloadOf := by
  simp only [emitted, from_pcap_trace, List.filterMap_cons, List.filterMap_append, payloadOf]
  cases (forLoop np 0 fs).2 <;> simp [raiseEvents, payloadOf]

/-- On a capture that opens, the escaping exception is the one escaping the loop. -/
theorem raised_ok (fs : List FrameOutcome) (np : Nat) :
    raised ⟨.ok, fs⟩ np = (forLoop np 0 fs).2 := by
  have hz : ((forLoop np 0 fs).1).filterMap errorOf = [] := by
    rw [List.filterMap_eq_nil_iff]
    intro a ha
    have hall := forLoop_all np (fun e => (errorOf e).isNone) rfl (fun s => rfl) fs 0
    rw [List.all_eq_true] at hall
    have := hall a ha
    simpa [Option.isNone_iff_eq_none] using this
  simp only [raised, from_pcap_trace, List.filterMap_cons, List.filterMap_append, errorOf, hz]
  cases (forLoop np 0 fs).2 <;> simp [raiseEvents, errorOf]

/-- The loop emits an initial segment of the matching payloads, in order. -/
theorem forLoop_filterMap_take (np : Nat) :
    ∀ (fs : List FrameOutcome) (sent : Nat),
      ∃ n, ((forLoop np sent fs).1).filterMap payloadOf = (matchingPayloads fs).take n := by
  intro fs
  induction fs with
  | nil => intro sent; exact ⟨0, rfl⟩
  | cons f rest ih =>
    intro sent
    cases f with
    | udpPayload s =>
      by_cases h : np < sent
      · exact ⟨0, by simp [forLoop, h, payloadOf]⟩
      · obtain ⟨n, hn⟩ := ih (sent + 1)
        refine ⟨n + 1, ?_⟩
        simp [forLoop, h, payloadOf, matchingPayloads, matchingPayload, hn,
          List.take_succ_cons]
    | attrError =>
      by_cases h : np < sent
      · exact ⟨0, by simp [forLoop, h, payloadOf]⟩
      · obtain ⟨n, hn⟩ := ih sent
        refine ⟨n, ?_⟩
        simp only [forLoop, h, if_neg h, matchingPayloads, matchingPayload,
          List.filterMap_cons]
        simp [payloadOf, hn, matchingPayloads]
    | frameError =>
      by_cases h : np < sent
      · exact ⟨0, by simp [forLoop, h, payloadOf]⟩
      · exact ⟨0, by simp [forLoop, h, payloadOf]⟩
    | readError => exact ⟨0, by simp [forLoop, payloadOf]⟩

end Opra

namespace Opra

/-- A predicate false on every event of a full trace counts zero over it. -/
theorem countP_trace_eq_zero (cap : Capture) (np : Nat) (p : Ev → Bool)
    (hopen : p (.openF "r") = false) (hclose : p .closeF = false)
    (hraise : ∀ e, p (.raiseE e) = false)
    (hread : p .readFrame = false) (hyield : ∀ s, p (.yieldP s) = false) :
    (from_pcap_trace cap np).countP p = 0 := by
  obtain ⟨o, fs⟩ := cap
  cases o with
  | openFail => simp [from_pcap_trace, List.countP_cons, hraise]
  | readerFail => simp [from_pcap_trace, List.countP_cons, hraise, hopen, hclose]
  | ok =>
    simp only [from_pcap_trace, List.countP_cons, List.countP_append,
      countP_forLoop_eq_zero np p hread hyield fs 0, hopen, hclose]
    cases (forLoop np 0 fs).2 <;> simp [raiseEvents, List.countP_cons, hraise, hclose]

/-- Every open of a full trace is matched by a release of the handle. -/
theorem trace_balanced (cap : Capture) (np : Nat) :
    (from_pcap_trace cap np).countP isOpenEv = (from_pcap_trace cap np).countP isCloseEv := by
  obtain ⟨o, fs⟩ := cap
  cases o with
  | openFail => rfl
  | readerFail => rfl
  | ok =>
    simp only [from_pcap_trace, List.countP_cons, List.countP_append,
      countP_forLoop_eq_zero np isOpenEv rfl (fun _ => rfl) fs 0,
      countP_forLoop_eq_zero np isCloseEv rfl (fun _ => rfl) fs 0]
    cases (forLoop np 0 fs).2 <;> simp [raiseEvents, List.countP_cons, isOpenEv, isCloseEv]

/-- Truncating at a yield produces a sublist of the original trace. -/
theorem truncAfterYields_sublist : ∀ (l : List Ev) (k : Nat), (truncAfterYields k l).Sublist l := by
  intro l
  induction l with
  | nil => intro k; simp [truncAfterYields]
  | cons e rest ih =>
    intro k
    cases e with
    | yieldP s =>
      by_cases h : k ≤ 1
      · simp [truncAfterYields, h]
      · simp [truncAfterYields, h, ih (k - 1)]
    | openF m => simp [truncAfterYields, ih k]
    | readFrame => simp [truncAfterYields, ih k]
    | writeF => simp [truncAfterYields, ih k]
    | closeF => simp [truncAfterYields, ih k]
    | raiseE e => simp [truncAfterYields, ih k]

/-- When the k-th yield lies inside the first part, truncation never reaches
the appended part. -/
theorem truncAfterYields_append : ∀ (l : List Ev) (k : Nat), 1 ≤ k → k ≤ yieldCount l →
    ∀ (l2 : List Ev), truncAfterYields k (l ++ l2) = truncAfterYields k l := by
  intro l
  induction l with
  | nil =>
    intro k hk h l2
    simp [yieldCount] at h
    omega
  | cons e rest ih =>
    intro k hk h l2
    cases e with
    | yieldP s =>
      by_cases h1 : k ≤ 1
      · simp [truncAfterYields, h1]
      · have hy : yieldCount (Ev.yieldP s :: rest) = yieldCount rest + 1 := by
          simp [yieldCount, List.countP_cons, isYieldEv]
        simp only [List.cons_append, truncAfterYields, if_neg h1]
        exact congrArg (Ev.yieldP s :: ·) (ih (k - 1) (by omega) (by omega) l2)
    | openF m =>
      have hy : yieldCount (Ev.openF m :: rest) = yieldCount rest := by
        simp [yieldCount, List.countP_cons, isYieldEv]
      simp only [List.cons_append, truncAfterYields]
      exact congrArg _ (ih k hk (by omega) l2)
    | readFrame =>
      have hy : yieldCount (Ev.readFrame :: rest) = yieldCount rest := by
        simp [yieldCount, List.countP_cons, isYieldEv]
      simp only [List.cons_append, truncAfterYields]
      exact congrArg _ (ih k hk (by omega) l2)
    | writeF =>
      have hy : yieldCount (Ev.writeF :: rest) = yieldCount rest := by
        simp [yieldCount, List.countP_cons, isYieldEv]
      simp only [List.cons_append, truncAfterYields]
      exact congrArg _ (ih k hk (by omega) l2)
    | closeF =>
      have hy : yieldCount (Ev.closeF :: rest) = yieldCount rest := by
        simp [yieldCount, List.countP_cons, isYieldEv]
      simp only [List.cons_append, truncAfterYields]
      exact congrArg _ (ih k hk (by omega) l2)
    | raiseE e =>
      have hy : yieldCount (Ev.raiseE e :: rest) = yieldCount rest := by
        simp [yieldCount, List.countP_cons, isYieldEv]
      simp only [List.cons_append, truncAfterYields]
      exact congrArg _ (ih k hk (by omega) l2)

end Opra

namespace Opra

/-- The yields of a full trace are exactly the yields of its loop part. -/
theorem yieldCount_trace_ok (fs : List FrameOutcome) (np : Nat) :
    yieldCount (from_pcap_trace ⟨.ok, fs⟩ np) = yieldCount ((forLoop np 0 fs).1) := by
  simp only [from_pcap_trace, yieldCount, List.countP_cons, List.countP_append]
  cases (forLoop np 0 fs).2 <;> simp [raiseEvents, List.countP_cons, isYieldEv]

/-- Main decomposition: abandoning after k yields, with the k-th yield
reached, leaves the opening event, only pull and yield events after it, and
the final release. -/
theorem abandonedTrace_eq_of_le (fs : List FrameOutcome) (np k : Nat) (hk : 1 ≤ k)
    (h : k ≤ yieldCount (from_pcap_trace ⟨.ok, fs⟩ np)) :
    abandonedTrace ⟨.ok, fs⟩ np k =
      (Ev.openF "r" :: truncAfterYields k ((forLoop np 0 fs).1)) ++ [Ev.closeF] := by
  have hb : k ≤ yieldCount ((forLoop np 0 fs).1) := by
    rw [yieldCount_trace_ok] at h
    exact h
  have hb2 : k ≤ yieldCount ((forLoop np 0 fs).1 ++ [Ev.closeF]) := by
    simp [yieldCount, List.countP_append, isYieldEv]
    simpa [yieldCount] using hb
  unfold abandonedTrace
  rw [if_neg (by omega : ¬k = 0), if_pos h]
  have htr : from_pcap_trace ⟨.ok, fs⟩ np =
      Ev.openF "r" :: ((forLoop np 0 fs).1 ++ [Ev.closeF]
        ++ raiseEvents (forLoop np 0 fs).2) := rfl
  rw [htr]
  have h1 : truncAfterYields k
      (Ev.openF "r" :: ((forLoop np 0 fs).1 ++ [Ev.closeF]
        ++ raiseEvents (forLoop np 0 fs).2)) =
      Ev.openF "r" :: truncAfterYields k ((forLoop np 0 fs).1) := by
    simp only [truncAfterYields]
    rw [truncAfterYields_append ((forLoop np 0 fs).1 ++ [Ev.closeF]) k hk hb2,
      truncAfterYields_append ((forLoop np 0 fs).1) k hk hb]
  rw [h1]

end Opra

namespace Opra

/-- Every abandoned run keeps opens and releases balanced. -/
theorem abandoned_balanced (cap : Capture) (np k : Nat) :
    (abandonedTrace cap np k).countP isOpenEv = (abandonedTrace cap np k).countP isCloseEv := by
  by_cases h0 : k = 0
  · simp [abandonedTrace, h0]
  · by_cases h1 : k ≤ yieldCount (from_pcap_trace cap np)
    · obtain ⟨o, fs⟩ := cap
      cases o with
      | openFail =>
        exfalso
        simp [from_pcap_trace, yieldCount, List.countP_cons, isYieldEv] at h1
        omega
      | readerFail =>
        exfalso
        simp [from_pcap_trace, yieldCount, List.countP_cons, isYieldEv] at h1
        omega
      | ok =>
        rw [abandonedTrace_eq_of_le fs np k (by omega) h1]
        have hsub := truncAfterYields_sublist ((forLoop np 0 fs).1) k
        have ho := List.Sublist.countP_le isOpenEv hsub
        have hzo := countP_forLoop_eq_zero np isOpenEv rfl (fun _ => rfl) fs 0
        have hc := List.Sublist.countP_le isCloseEv hsub
        have hzc := countP_forLoop_eq_zero np isCloseEv rfl (fun _ => rfl) fs 0
        have e1 : isOpenEv (Ev.openF "r") = true := rfl
        have e2 : isOpenEv Ev.closeF = false := rfl
        have e3 : isCloseEv (Ev.openF "r") = false := rfl
        have e4 : isCloseEv Ev.closeF = true := rfl
        simp [List.countP_append, List.countP_cons, e1, e2, e3, e4]
        omega
    · simp only [abandonedTrace, if_neg h0, if_neg h1]
      exact trace_balanced cap np

/-- A predicate false on every kind of event still present after
abandonment counts zero over any abandoned run. -/
theorem countP_abandoned_eq_zero (cap : Capture) (np k : Nat) (p : Ev → Bool)
    (hopen : p (.openF "r") = false) (hclose : p .closeF = false)
    (hraise : ∀ e, p (.raiseE e) = false)
    (hread : p .readFrame = false) (hyield : ∀ s, p (.yieldP s) = false) :
    (abandonedTrace cap np k).countP p = 0 := by
  by_cases h0 : k = 0
  · simp [abandonedTrace, h0]
  · by_cases h1 : k ≤ yieldCount (from_pcap_trace cap np)
    · obtain ⟨o, fs⟩ := cap
      cases o with
      | openFail =>
        exfalso
        simp [from_pcap_trace, yieldCount, List.countP_cons, isYieldEv] at h1
        omega
      | readerFail =>
        exfalso
        simp [from_pcap_trace, yieldCount, List.countP_cons, isYieldEv] at h1
        omega
      | ok =>
        rw [abandonedTrace_eq_of_le fs np k (by omega) h1]
        have hsub := truncAfterYields_sublist ((forLoop np 0 fs).1) k
        have hz := countP_forLoop_eq_zero np p hread hyield fs 0
        simp [List.countP_append, List.countP_cons, hopen, hclose]
        intro a ha
        have hmem := hsub.subset ha
        have := List.countP_eq_zero.mp hz a hmem
        simpa using this
    · simp only [abandonedTrace, if_neg h0, if_neg h1]
      exact countP_trace_eq_zero cap np p hopen hclose hraise hread hyield

end Opra

namespace Opra

/-- A capture whose frames all either match or raise the caught
exception class, so that the loop runs to its own termination. -/
def errorFree (fs : List FrameOutcome) : Bool :=
  fs.all (fun f => match f with
    | .udpPayload _ => true
    | .attrError => true
    | _ => false)

/-- Emission count of the loop: the strict bound check makes it stop only
after `npackets + 1 - sent` payloads. -/
theorem forLoop_length_min (np : Nat) :
    ∀ (fs : List FrameOutcome) (sent : Nat), errorFree fs = true →
      (((forLoop np sent fs).1).filterMap payloadOf).length
        = min (np + 1 - sent) (matchingPayloads fs).length := by
  intro fs
  induction fs with
  | nil => intro sent h; simp [forLoop, matchingPayloads]
  | cons f rest ih =>
    intro sent h
    cases f with
    | udpPayload s =>
      have hrest : errorFree rest = true := by simpa [errorFree] using h
      by_cases hlt : np < sent
      · simp [forLoop, hlt, payloadOf, matchingPayloads, matchingPayload]
        omega
      · simp [forLoop, hlt, payloadOf, matchingPayloads, matchingPayload,
          ih (sent + 1) hrest]
        omega
    | attrError =>
      have hrest : errorFree rest = true := by simpa [errorFree] using h
      by_cases hlt : np < sent
      · simp [forLoop, hlt, payloadOf, matchingPayloads, matchingPayload]
        omega
      · simp [forLoop, hlt, payloadOf, matchingPayloads, matchingPayload, ih sent hrest]
    | frameError => simp [errorFree] at h
    | readError => simp [errorFree] at h

/-- What the code actually guarantees for the emission count: on a capture
with no uncaught per-frame exceptions, the number of payloads emitted is
the minimum of `npackets + 1` (not `npackets`) and the number of matching
frames. -/
theorem emitted_length_min (fs : List FrameOutcome) (np : Nat) (h : errorFree fs = true) :
    (emitted ⟨.ok, fs⟩ np).length = min (np + 1) (matchingPayloads fs).length := by
  rw [emitted_ok]
  simpa using forLoop_length_min np fs 0 h

end Opra

namespace Opra

/-- C1: the claim that the number of emitted payloads never exceeds
`max_payloads` and equals `min(max_payloads, matching frames)` fails on the
code.  Evaluating `from_pcap` at the failing input: a capture of two
matching frames with `npackets = 1` emits both payloads, because the bound
check `if sent > npackets: break` is strict, so the code emits
`min(npackets + 1, matching frames)` payloads. -/
theorem C1_bound_overrun :
    emitted ⟨.ok, [.udpPayload "a", .udpPayload "b"]⟩ 1 = ["a", "b"]
      ∧ (emitted ⟨.ok, [.udpPayload "a", .udpPayload "b"]⟩ 1).length = 2 :=
  ⟨rfl, rfl⟩

/-- C2: the claim that every frame failing to decode is silently skipped
fails on the code.  Only an `AttributeError` inside the `try` block is
caught: a frame whose interpretation raises any other exception (such as
the `IndexError` scapy raises when the UDP layer is absent) aborts the
sequence with the error surfaced, while an `AttributeError` frame is
indeed skipped silently. -/
theorem C2_mismatch_not_skipped :
    emitted ⟨.ok, [.frameError]⟩ 10 = []
      ∧ raised ⟨.ok, [.frameError]⟩ 10 = some .frameException
      ∧ emitted ⟨.ok, [.attrError]⟩ 10 = []
      ∧ raised ⟨.ok, [.attrError]⟩ 10 = none :=
  ⟨rfl, rfl, rfl, rfl⟩

/-- C3: confirmed.  For every capture and bound, the emitted sequence is an
initial segment of the matching payloads in capture-file order: nothing is
reordered, duplicated, or deduplicated. -/
theorem C3_order_preserved (cap : Capture) (np : Nat) :
    ∃ n, emitted cap np = (matchingPayloads cap.frames).take n := by
  obtain ⟨o, fs⟩ := cap
  cases o with
  | openFail => exact ⟨0, rfl⟩
  | readerFail => exact ⟨0, rfl⟩
  | ok =>
    rw [emitted_ok]
    exact forLoop_filterMap_take np fs 0

/-- C4: confirmed.  If the capture cannot be opened, or is not recognised
by the reader, the open error propagates to the caller with no payload
emitted and no frame record consumed. -/
theorem C4_capture_open_error (fs : List FrameOutcome) (np : Nat) :
    (emitted ⟨.openFail, fs⟩ np = [] ∧ framesRead ⟨.openFail, fs⟩ np = 0
      ∧ raised ⟨.openFail, fs⟩ np = some .captureOpenError)
    ∧ (emitted ⟨.readerFail, fs⟩ np = [] ∧ framesRead ⟨.readerFail, fs⟩ np = 0
      ∧ raised ⟨.readerFail, fs⟩ np = some .captureOpenError) :=
  ⟨⟨rfl, rfl, rfl⟩, ⟨rfl, rfl, rfl⟩⟩

/-- C5: the claim that extraction stops immediately once the bound is
reached, reading no further frames, fails on the code.  With
`npackets = 1` and four matching frames the code emits two payloads (the
strict bound check) and pulls a third record before the break triggers;
the full trace shows the handle is released right after that extra pull,
leaving the fourth frame unread. -/
theorem C5_overread :
    from_pcap_trace
        ⟨.ok, [.udpPayload "a", .udpPayload "b", .udpPayload "c", .udpPayload "d"]⟩ 1
      = [.openF "r", .readFrame, .yieldP "a", .readFrame, .yieldP "b", .readFrame, .closeF]
    ∧ emitted ⟨.ok, [.udpPayload "a", .udpPayload "b", .udpPayload "c", .udpPayload "d"]⟩ 1
      = ["a", "b"]
    ∧ framesRead ⟨.ok, [.udpPayload "a", .udpPayload "b", .udpPayload "c", .udpPayload "d"]⟩ 1
      = 3 :=
  ⟨rfl, rfl, rfl⟩

/-- C6: confirmed.  For every capture, bound, and consumption pattern
(including abandoning after any number of items, the bound being reached,
exhaustion, open failure, or a propagated frame exception), every open of
the file handle is matched by a release: no exit path leaks the handle. -/
theorem C6_no_handle_leak (cap : Capture) (np k : Nat) :
    (abandonedTrace cap np k).countP isOpenEv = (abandonedTrace cap np k).countP isCloseEv
      ∧ (from_pcap_trace cap np).countP isOpenEv
        = (from_pcap_trace cap np).countP isCloseEv :=
  ⟨abandoned_balanced cap np k, trace_balanced cap np⟩

/-- Whether a trace opens the file and does so in a binary mode (a mode
string containing the character b). -/
def openedInBinaryMode (tr : List Ev) : Bool :=
  tr.any isOpenEv && tr.all (fun e => match e with
    | .openF m => m.data.contains 'b'
    | _ => true)

/-- C7 counterexample: the file is not opened in binary mode.  The source
passes the literal mode string "r" to `open`, which contains no b. -/
theorem C7_not_binary_mode :
    openedInBinaryMode (from_pcap_trace ⟨.ok, []⟩ 50) = false := by decide

/-- Recognises an open whose mode differs from the literal "r" the source
passes. -/
def isNonTextModeOpen : Ev → Bool
  | .openF m => !(m == "r")
  | _ => false

/-- C7 amended: every open of the capture file uses the read-only text
mode "r" (not a binary mode), no write event ever occurs, and every open
is matched by a release of the handle, on full runs and on abandoned
runs alike. -/
theorem C7_text_mode (cap : Capture) (np k : Nat) :
    (abandonedTrace cap np k).countP isNonTextModeOpen = 0
      ∧ (abandonedTrace cap np k).countP isWriteEv = 0
      ∧ (from_pcap_trace cap np).countP isNonTextModeOpen = 0
      ∧ (from_pcap_trace cap np).countP isWriteEv = 0
      ∧ (abandonedTrace cap np k).countP isOpenEv
        = (abandonedTrace cap np k).countP isCloseEv := by
  refine ⟨?_, ?_, ?_, ?_, abandoned_balanced cap np k⟩
  · exact countP_abandoned_eq_zero cap np k isNonTextModeOpen (by decide) rfl
      (fun _ => rfl) rfl (fun _ => rfl)
  · exact countP_abandoned_eq_zero cap np k isWriteEv rfl rfl
      (fun _ => rfl) rfl (fun _ => rfl)
  · exact countP_trace_eq_zero cap np isNonTextModeOpen (by decide) rfl
      (fun _ => rfl) rfl (fun _ => rfl)
  · exact countP_trace_eq_zero cap np isWriteEv rfl rfl
      (fun _ => rfl) rfl (fun _ => rfl)

/-- C8: the scenario fails on the code.  A non-matching frame, one whose
decode does not reach the expected transport shape, makes the scapy layer
lookup raise IndexError, which the except clause (AttributeError only)
does not catch, as established for C2.  Evaluating the scenario with its
three non-matching frames of that kind: the extraction aborts at the very
first frame, pulling one record, emitting zero payloads and surfacing the
exception, instead of the claimed two payloads from the last two frames. -/
theorem C8_scenario_aborts :
    emitted ⟨.ok, [.frameError, .frameError, .frameError,
        .udpPayload "p1", .udpPayload "p2"]⟩ 10 = []
      ∧ raised ⟨.ok, [.frameError, .frameError, .frameError,
          .udpPayload "p1", .udpPayload "p2"]⟩ 10 = some .frameException
      ∧ framesRead ⟨.ok, [.frameError, .frameError, .frameError,
          .udpPayload "p1", .udpPayload "p2"]⟩ 10 = 1 :=
  ⟨rfl, rfl, rfl⟩

/-- C9: confirmed.  A frame raising `AttributeError` during payload
extraction is skipped with no observable effect on the emitted payloads or
on the escaping exception; a frame whose interpretation raises any other
exception, or a reader failure while pulling the next record, terminates
the sequence with the exception surfaced, and the trace shows the handle
released before the exception reaches the caller. -/
theorem C9_only_attribute_error_recoverable (fs : List FrameOutcome) (np : Nat) :
    (emitted ⟨.ok, .attrError :: fs⟩ np = emitted ⟨.ok, fs⟩ np
      ∧ raised ⟨.ok, .attrError :: fs⟩ np = raised ⟨.ok, fs⟩ np)
    ∧ (emitted ⟨.ok, .frameError :: fs⟩ np = []
      ∧ raised ⟨.ok, .frameError :: fs⟩ np = some .frameException
      ∧ from_pcap_trace ⟨.ok, .frameError :: fs⟩ np
        = [.openF "r", .readFrame, .closeF, .raiseE .frameException])
    ∧ (emitted ⟨.ok, .readError :: fs⟩ np = []
      ∧ raised ⟨.ok, .readError :: fs⟩ np = some .frameException
      ∧ from_pcap_trace ⟨.ok, .readError :: fs⟩ np
        = [.openF "r", .closeF, .raiseE .frameException]) := by
  have hloopA : forLoop np 0 (.attrError :: fs)
      = (Ev.readFrame :: (forLoop np 0 fs).1, (forLoop np 0 fs).2) := by
    simp [forLoop]
  have hloopF : forLoop np 0 (.frameError :: fs)
      = ([Ev.readFrame], some .frameException) := by
    simp [forLoop]
  have hloopR : forLoop np 0 (.readError :: fs) = ([], some .frameException) := rfl
  refine ⟨⟨?_, ?_⟩, ⟨?_, ?_, ?_⟩, ⟨?_, ?_, ?_⟩⟩
  · rw [emitted_ok, emitted_ok, hloopA]
    simp [payloadOf]
  · rw [raised_ok, raised_ok, hloopA]
  · rw [emitted_ok, hloopF]
    rfl
  · rw [raised_ok, hloopF]
  · simp [from_pcap_trace, hloopF, raiseEvents]
  · rw [emitted_ok, hloopR]
    rfl
  · rw [raised_ok, hloopR]
  · simp [from_pcap_trace, hloopR, raiseEvents]

/-- C10: confirmed.  Called with no arguments, `from_pcap` falls back to
the hard-coded capture path and to a maximum count of 50. -/
theorem C10_defaults :
    resolveFname none
        = "/home/chiggs/market-data/nysetech-data-feeds/opra_binary_3.20130320.pcap"
      ∧ resolveNpackets none = 50 ∧ default_npackets = 50 :=
  ⟨rfl, rfl, rfl⟩

end Opra
